import Mathlib

/-!
Verification of the Santismo hunt progression engine.

The definitions below are a shallow embedding of `src/src/App.jsx`:
strings are `String` / `List Char`, the persisted progress plus the
component-local React state is the `HuntState` record, `setTimeout`
callbacks that are scheduled but not yet fired are kept in an explicit
`pendingAdvance` list (the code never stores or clears the handle of the
step-advance timer), and `Math.random()`-driven pool selection is
modelled by an arbitrary natural index reduced modulo the pool size.
-/

namespace Santismo

/-! ### Answer normalizer (`normalize`, App.jsx lines 13-20)

`normalize` is `(s || "").toString().trim().toLowerCase()
.replace(/[^a-z0-9\s-]/g, "").replace(/\s+/g, " ")`.
We model it over `List Char`; JavaScript's `\s` class and `trim()`
whitespace are the `isWs` characters, `toLowerCase` is modelled on the
ASCII range (all inputs appearing in the hunt data are ASCII).  -/

def isWs (c : Char) : Bool :=
  c.toNat = 9 || c.toNat = 10 || c.toNat = 11 || c.toNat = 12 || c.toNat = 13 ||
  c.toNat = 32 || c.toNat = 160 || c.toNat = 5760 ||
  (8192 ≤ c.toNat && c.toNat ≤ 8202) ||
  c.toNat = 8232 || c.toNat = 8233 || c.toNat = 8239 || c.toNat = 8287 ||
  c.toNat = 12288 || c.toNat = 65279

def isLowerAZ (c : Char) : Bool := 97 ≤ c.toNat && c.toNat ≤ 122

def isDigit09 (c : Char) : Bool := 48 ≤ c.toNat && c.toNat ≤ 57

def isUpperAZ (c : Char) : Bool := 65 ≤ c.toNat && c.toNat ≤ 90

/-- The complement of the stripped class `[^a-z0-9\s-]`: characters kept by
the first `replace`. `'-'` has code 45. -/
def keepChar (c : Char) : Bool := isLowerAZ c || isDigit09 c || isWs c || c.toNat = 45

/-- `String.prototype.toLowerCase()`, modelled on the ASCII letters. -/
def jsToLower (c : Char) : Char :=
  if isUpperAZ c then Char.ofNat (c.toNat + 32) else c

def trimLeft (l : List Char) : List Char := l.dropWhile isWs

/-- Removal of trailing whitespace (the right half of `String.prototype.trim()`). -/
def trimRight : List Char → List Char
  | [] => []
  | c :: rest =>
    match trimRight rest with
    | [] => if isWs c then [] else [c]
    | r => c :: r

/-- `String.prototype.trim()`. -/
def trim (l : List Char) : List Char := trimRight (trimLeft l)

/-- `replace(/\s+/g, " ")`: every maximal run of whitespace becomes one `' '`.
The boolean argument records whether we are inside a whitespace run. -/
def collapseAux : Bool → List Char → List Char
  | _, [] => []
  | prevWs, c :: rest =>
    if isWs c then
      if prevWs then collapseAux true rest else ' ' :: collapseAux true rest
    else
      c :: collapseAux false rest

def collapseWs (l : List Char) : List Char := collapseAux false l

/-- `normalize` of App.jsx on a (non-null) string, as a `List Char` pipeline:
trim, lowercase, strip `[^a-z0-9\s-]`, collapse whitespace runs. -/
def normalize (l : List Char) : List Char :=
  collapseWs (((trim l).map jsToLower).filter keepChar)

def normalizeStr (s : String) : String := String.mk (normalize s.data)

/-- The possible JavaScript inputs to `normalize`: the code coerces with
`(s || "").toString()`, so `null`/`undefined`/`""` (the falsy inputs) all
become the empty string before any transformation. -/
inductive JSVal where
  | jsNull
  | jsUndefined
  | jsStr (s : String)

def coerceInput : JSVal → String
  | .jsNull => ""
  | .jsUndefined => ""
  | .jsStr s => s

def normalizeJS (v : JSVal) : String := normalizeStr (coerceInput v)

/-- `noTwoWs l` holds when no two adjacent characters of `l` are both
whitespace; an invariant of `collapseWs` output used for the idempotence
analysis. -/
def noTwoWs : List Char → Bool
  | c1 :: c2 :: rest => (!(isWs c1 && isWs c2)) && noTwoWs (c2 :: rest)
  | _ => true

/-! ### Zones (`ZONES` keys and `zoneGroup`, App.jsx lines 100-131)

The rectangle geometry of `ZONES` is decorative rendering data; only the
key set matters to the engine, so we embed the keys. -/

def ZONES : List String :=
  ["up_corridor", "up_bedroom_current", "up_guest_bedroom", "up_guest_closet",
   "up_master_bedroom", "up_master_bath", "stairs_transition",
   "entry_spine", "study", "kitchen", "christmas_room_fireplace",
   "christmas_room_sofa", "formal_living_empty", "down_bath", "laundry",
   "back_door", "yard_path", "shed_final"]

/-- `zoneGroup` of App.jsx. The JavaScript falsy check `!zoneId` (true for
`undefined`, `null` and `""`) is modelled by the empty string. -/
def zoneGroup (zoneId : String) : String :=
  if zoneId = "" then "unknown"
  else if "up_".data.isPrefixOf zoneId.data || zoneId = "stairs_transition" then "up"
  else if zoneId = "yard_path" || zoneId = "shed_final" then "out"
  else "down"

/-! ### Narration selector (`mapRevealLine`, App.jsx lines 252-289) -/

def genericPool : List String :=
  ["You were here‚Ä¶ now you‚Äôre not.",
   "The house remembers your footsteps.",
   "Rooms change. So do people.",
   "You‚Äôre getting closer‚Ä¶ I can feel it.",
   "Not that room anymore.",
   ]

/-- The direction-aware candidate lines pushed for a `(fromG, toG)` pair, in
the push order of the code. -/
def directionalLines (fromG toG : String) : List String :=
  (if fromG = "up" && toG = "down" then ["Downstairs now‚Ä¶ good choice."] else []) ++
  (if fromG ≠ "out" && toG = "out" then ["Outside‚Ä¶ where my laugh travels farther."] else []) ++
  (if toG = "up" then ["Back upstairs? Brave."] else [])

/-- `mapRevealLine` of App.jsx. `Math.floor(Math.random() * all.length)` is
modelled by an arbitrary index `k` reduced modulo `all.length`. -/
def mapRevealLine (nextStepId : Nat) (fromZone toZone : String) (k : Nat) : String :=
  if nextStepId = 7 then "You‚Äôve finished upstairs‚Ä¶ good. Let‚Äôs see what waits below."
  else if nextStepId = 10 then "Ah‚Ä¶ warmth. Fire is comforting, isn‚Äôt it? It hides things so well."
  else if nextStepId = 16 then "You‚Äôre leaving the house now‚Ä¶ don‚Äôt worry. It‚Äôs still watching."
  else if nextStepId = 17 then "I didn‚Äôt hide this far away‚Ä¶ I hid it on purpose."
  else if nextStepId = 18 then "You made it. The house accepts you‚Ä¶ and so do I."
  else
    let dir := directionalLines (zoneGroup fromZone) (zoneGroup toZone)
    let all := if dir ≠ [] then dir ++ genericPool else genericPool
    all.getD (k % all.length) ""

/-! ### Hunt definition (`DEFAULT_STEPS`, App.jsx lines 295-476)

`title`, `riddle`, `locationHint` and `santismoLine` are display-only
flavor strings never interpreted by the engine, so only the fields the
engine reads (`id`, `zone`, `answer`) are embedded. -/

structure Step where
  id : Nat
  zone : String
  answer : String
deriving DecidableEq

def DEFAULT_STEPS : List Step :=
  [⟨1, "up_corridor", "crossroads"⟩,
   ⟨2, "up_bedroom_current", "shared dreams"⟩,
   ⟨3, "up_guest_bedroom", "spare soul"⟩,
   ⟨4, "up_guest_closet", "hidden threads"⟩,
   ⟨5, "up_master_bedroom", "unwritten"⟩,
   ⟨6, "up_master_bath", "clean sins"⟩,
   ⟨7, "stairs_transition", "threshold"⟩,
   ⟨8, "study", "ink pact"⟩,
   ⟨9, "kitchen", "midnight bite"⟩,
   ⟨10, "christmas_room_fireplace", "ember vow"⟩,
   ⟨11, "christmas_room_sofa", "soft trap"⟩,
   ⟨12, "formal_living_empty", "echo chamber"⟩,
   ⟨13, "down_bath", "quick confession"⟩,
   ⟨14, "laundry", "spin cycle"⟩,
   ⟨15, "back_door", "last warmth"⟩,
   ⟨16, "yard_path", "frozen ground"⟩,
   ⟨17, "shed_final", "final knock"⟩,
   ⟨18, "shed_final", "homebound"⟩]

/-! ### Reveal payload (`showMapForNextStep`, App.jsx lines 546-567) -/

/-- The `visitedZones` computed by `showMapForNextStep`:
`steps.slice(0, Math.min(nextIndex, steps.length)).map(s => s.zone).filter(Boolean)`. -/
def showMapVisited (steps : List Step) (nextIndex : Nat) : List String :=
  ((steps.take (min nextIndex steps.length)).map Step.zone).filter (fun z => z != "")

/-- The `mapZone` set by `showMapForNextStep`:
`steps[Math.min(nextIndex, steps.length - 1)].zone` (present whenever the
hunt is non-empty). -/
def showMapZone (steps : List Step) (nextIndex : Nat) : Option String :=
  (steps.get? (min nextIndex (steps.length - 1))).map Step.zone

/-! ### Engine state and operations (App.jsx lines 478-617) -/

/-- The persisted progress (`saved.stepIndex`, `saved.unlockedAudio`) plus
the component-local state the engine mutates. `pendingAdvance` records the
payloads of step-advance `setTimeout` callbacks that are scheduled but have
not fired yet; the code never stores or clears these timer handles. -/
structure HuntState where
  stepIndex : Nat
  unlockedAudio : Bool
  answerInput : String
  showHint : Bool
  mapOpen : Bool
  mapZone : Option String
  mapVisited : List String
  pendingAdvance : List Nat
deriving DecidableEq

/-- The externally observable side requests an operation makes: the whisper
action, the transient shake (mismatch) cue, and a speech request to the
external narrator. -/
inductive Effect where
  | whisperRequest
  | shake
  | narrate
deriving DecidableEq

/-- `steps[Math.min(saved.stepIndex, steps.length - 1)]` (App.jsx line 495):
the current step resolved from a possibly out-of-range persisted index. -/
def currentStepAt (steps : List Step) (stepIndex : Nat) : Option Step :=
  steps.get? (min stepIndex (steps.length - 1))

/-- `onSubmit` of App.jsx (lines 569-599). The terminal check is
`saved.stepIndex >= steps.length - 1`; on a match the map payload is set,
the input cleared, and an advance timer to `nextIndex` is scheduled; on a
mismatch only the shake cue (and, if audio is unlocked, a narrator call)
happens. The `none` branch is unreachable for a non-empty hunt. -/
def onSubmit (steps : List Step) (s : HuntState) : HuntState × List Effect :=
  if s.stepIndex ≥ steps.length - 1 then
    (s, [Effect.whisperRequest])
  else
    match currentStepAt steps s.stepIndex with
    | none => (s, [])
    | some step =>
      if normalizeStr s.answerInput = normalizeStr step.answer then
        let nextIndex := min (s.stepIndex + 1) (steps.length - 1)
        ({ s with answerInput := "",
                  mapVisited := showMapVisited steps nextIndex,
                  mapZone := showMapZone steps nextIndex,
                  mapOpen := true,
                  pendingAdvance := s.pendingAdvance ++ [nextIndex] },
         if s.unlockedAudio then [Effect.narrate] else [])
      else
        (s, Effect.shake :: (if s.unlockedAudio then [Effect.narrate] else []))

/-- `reset` of App.jsx (lines 601-610), after the `window.confirm` guard:
`setSaved({stepIndex: 0, unlockedAudio: saved.unlockedAudio})`, clear the
input, hide the hint, close the map. No timer is cleared. -/
def reset (confirmed : Bool) (s : HuntState) : HuntState :=
  if confirmed then
    { s with stepIndex := 0, unlockedAudio := s.unlockedAudio,
             answerInput := "", showHint := false, mapOpen := false }
  else s

/-- `jumpTo` of App.jsx (lines 612-617):
`Math.max(0, Math.min(idx, steps.length - 1))`. No timer is cleared. -/
def jumpTo (steps : List Step) (idx : Int) (s : HuntState) : HuntState :=
  { s with stepIndex := (max 0 (min idx ((steps.length : Int) - 1))).toNat,
           answerInput := "", showHint := false, mapOpen := false }

/-- The step-advance `setTimeout` callback firing (App.jsx lines 587-589):
`setSaved(s => ({...s, stepIndex: nextIndex}))` for the captured
`nextIndex`; the fired timer leaves the pending list. -/
def fireAdvance (n : Nat) (s : HuntState) : HuntState :=
  { s with stepIndex := n, pendingAdvance := s.pendingAdvance.erase n }

/-- A fresh session at step 0, audio locked, with the first code word typed
into the answer box. -/
def submitReadyState : HuntState :=
  { stepIndex := 0, unlockedAudio := false, answerInput := "crossroads",
    showHint := false, mapOpen := false, mapZone := none, mapVisited := [],
    pendingAdvance := [] }

/-- A session sitting at the terminal step (index 17 of the 18-step hunt)
with an arbitrary typed input. -/
def terminalState : HuntState :=
  { stepIndex := 17, unlockedAudio := true, answerInput := "anything at all",
    showHint := false, mapOpen := false, mapZone := none, mapVisited := [],
    pendingAdvance := [] }

end Santismo

namespace Santismo

/-! ### Helper lemmas about the normalizer -/

theorem keepChar_space : keepChar ' ' = true := by decide

theorem keep_not_upper {c : Char} (h : keepChar c = true) : isUpperAZ c = false := by
  simp only [keepChar, isLowerAZ, isDigit09, isWs, Bool.or_eq_true,
    Bool.and_eq_true, decide_eq_true_eq] at h
  by_contra hb
  rw [Bool.not_eq_false] at hb
  simp only [isUpperAZ, Bool.and_eq_true, decide_eq_true_eq] at hb
  omega

theorem jsToLower_noop {c : Char} (h : keepChar c = true) : jsToLower c = c := by
  simp [jsToLower, keep_not_upper h]

theorem mem_collapseAux {c : Char} (b : Bool) (l : List Char) (h : c ∈ collapseAux b l) :
    c = ' ' ∨ (c ∈ l ∧ isWs c = false) := by
  induction l generalizing b with
  | nil => simp [collapseAux] at h
  | cons c0 rest ih =>
    by_cases hw : isWs c0
    · cases b with
      | true =>
        rw [collapseAux, if_pos hw, if_pos rfl] at h
        rcases ih true h with h1 | ⟨h2, h3⟩
        · exact Or.inl h1
        · exact Or.inr ⟨List.mem_cons_of_mem _ h2, h3⟩
      | false =>
        rw [collapseAux, if_pos hw, if_neg (by simp)] at h
        rcases List.mem_cons.mp h with rfl | h'
        · exact Or.inl rfl
        · rcases ih true h' with h1 | ⟨h2, h3⟩
          · exact Or.inl h1
          · exact Or.inr ⟨List.mem_cons_of_mem _ h2, h3⟩
    · have hw' : isWs c0 = false := by simpa using hw
      rw [collapseAux, if_neg (by simp [hw'])] at h
      rcases List.mem_cons.mp h with rfl | h'
      · exact Or.inr ⟨List.mem_cons_self _ _, hw'⟩
      · rcases ih false h' with h1 | ⟨h2, h3⟩
        · exact Or.inl h1
        · exact Or.inr ⟨List.mem_cons_of_mem _ h2, h3⟩

theorem collapseAux_true_eq_false (l : List Char)
    (h : ∀ c cs, l = c :: cs → isWs c = false) :
    collapseAux true l = collapseAux false l := by
  cases l with
  | nil => rfl
  | cons c cs =>
    have := h c cs rfl
    rw [collapseAux, collapseAux, if_neg (by simp [this]), if_neg (by simp [this])]

theorem noTwoWs_tail {c : Char} {l : List Char} (h : noTwoWs (c :: l) = true) :
    noTwoWs l = true := by
  cases l with
  | nil => rfl
  | cons c2 r =>
    rw [noTwoWs, Bool.and_eq_true] at h
    exact h.2

theorem noTwoWs_pair {c1 c2 : Char} {l : List Char} (h : noTwoWs (c1 :: c2 :: l) = true) :
    (isWs c1 && isWs c2) = false := by
  rw [noTwoWs, Bool.and_eq_true] at h
  have := h.1
  rwa [Bool.not_eq_true'] at this

theorem noTwoWs_cons {c : Char} {l : List Char} (hc : isWs c = false)
    (hl : noTwoWs l = true) : noTwoWs (c :: l) = true := by
  cases l with
  | nil => rfl
  | cons c2 r => rw [noTwoWs, hc, Bool.false_and, Bool.not_false, Bool.true_and]; exact hl

theorem collapse_inv (l : List Char) :
    (∀ b, noTwoWs (collapseAux b l) = true) ∧
    (∀ c cs, collapseAux true l = c :: cs → isWs c = false) := by
  induction l with
  | nil => exact ⟨fun _ => rfl, fun c cs h => by simp [collapseAux] at h⟩
  | cons c0 rest ih =>
    obtain ⟨ih1, ih2⟩ := ih
    by_cases hw : isWs c0
    · refine ⟨fun b => ?_, fun c cs h => ?_⟩
      · cases b with
        | true =>
          rw [collapseAux, if_pos hw, if_pos rfl]
          exact ih1 true
        | false =>
          rw [collapseAux, if_pos hw, if_neg (by simp)]
          rcases hrec : collapseAux true rest with _ | ⟨c2, cs⟩
          · rfl
          · have hc2 : isWs c2 = false := ih2 c2 cs hrec
            have hnt : noTwoWs (c2 :: cs) = true := by rw [← hrec]; exact ih1 true
            rw [noTwoWs, hc2, Bool.and_false, Bool.not_false, Bool.true_and]
            exact hnt
      · rw [collapseAux, if_pos hw, if_pos rfl] at h
        exact ih2 c cs h
    · have hw' : isWs c0 = false := by simpa using hw
      refine ⟨fun b => ?_, fun c cs h => ?_⟩
      · rw [collapseAux, if_neg (by simp [hw'])]
        exact noTwoWs_cons hw' (ih1 false)
      · rw [collapseAux, if_neg (by simp [hw'])] at h
        cases h
        exact hw'

theorem collapse_noop (l : List Char)
    (hws : ∀ c ∈ l, isWs c = true → c = ' ')
    (hnt : noTwoWs l = true) :
    collapseAux false l = l := by
  induction l with
  | nil => rfl
  | cons c0 rest ih =>
    have hrest : collapseAux false rest = rest :=
      ih (fun c hc => hws c (List.mem_cons_of_mem _ hc)) (noTwoWs_tail hnt)
    by_cases hw : isWs c0
    · have hc0 : c0 = ' ' := hws c0 (List.mem_cons_self _ _) hw
      rw [collapseAux, if_pos hw, if_neg (by simp), hc0]
      have heq : collapseAux true rest = collapseAux false rest := by
        apply collapseAux_true_eq_false
        intro c cs hcs
        subst hcs
        have := noTwoWs_pair hnt
        rw [hw, Bool.true_and] at this
        exact this
      rw [heq, hrest]
    · have hw' : isWs c0 = false := by simpa using hw
      rw [collapseAux, if_neg (by simp [hw']), hrest]

theorem trimRight_subset {c : Char} : ∀ l : List Char, c ∈ trimRight l → c ∈ l := by
  intro l
  induction l with
  | nil => simp [trimRight]
  | cons c0 rest ih =>
    intro h
    rw [trimRight] at h
    rcases hrec : trimRight rest with _ | ⟨r0, rr⟩ <;> rw [hrec] at h
    · by_cases hw : isWs c0
      · rw [if_pos hw] at h; simp at h
      · rw [if_neg hw] at h
        have hc : c = c0 := List.mem_singleton.mp h
        subst hc
        exact List.mem_cons_self _ _
    · rcases List.mem_cons.mp h with rfl | h'
      · exact List.mem_cons_self _ _
      · exact List.mem_cons_of_mem _ (ih (hrec ▸ h'))

theorem trimRight_head {c0 : Char} {l : List Char} {c : Char} {cs : List Char}
    (h : trimRight (c0 :: l) = c :: cs) : c = c0 := by
  rw [trimRight] at h
  rcases hrec : trimRight l with _ | ⟨r0, rr⟩ <;> rw [hrec] at h
  · by_cases hw : isWs c0
    · rw [if_pos hw] at h; cases h
    · rw [if_neg hw] at h; cases h; rfl
  · cases h; rfl

theorem trimRight_noTwo : ∀ l : List Char, noTwoWs l = true → noTwoWs (trimRight l) = true := by
  intro l
  induction l with
  | nil => intro _; rfl
  | cons c0 rest ih =>
    intro h
    have hrest := ih (noTwoWs_tail h)
    rw [trimRight]
    rcases hrec : trimRight rest with _ | ⟨r0, rr⟩
    · show noTwoWs (if isWs c0 = true then [] else [c0]) = true
      by_cases hw : isWs c0
      · rw [if_pos hw]; rfl
      · rw [if_neg hw]; rfl
    · show noTwoWs (c0 :: r0 :: rr) = true
      rw [hrec] at hrest
      cases rest with
      | nil => simp [trimRight] at hrec
      | cons c1 rest' =>
        have hr0 : r0 = c1 := trimRight_head hrec
        rw [noTwoWs, Bool.and_eq_true]
        refine ⟨?_, hrest⟩
        have hpair := noTwoWs_pair h
        rw [hr0]
        rw [Bool.not_eq_true']
        exact hpair

theorem mem_dropWhile {c : Char} (l : List Char) (h : c ∈ l.dropWhile isWs) : c ∈ l := by
  induction l with
  | nil => simp at h
  | cons c0 rest ih =>
    rw [List.dropWhile_cons] at h
    split at h
    · exact List.mem_cons_of_mem _ (ih h)
    · exact h

theorem noTwoWs_dropWhile (l : List Char) (h : noTwoWs l = true) :
    noTwoWs (l.dropWhile isWs) = true := by
  induction l with
  | nil => rfl
  | cons c0 rest ih =>
    rw [List.dropWhile_cons]
    split
    · exact ih (noTwoWs_tail h)
    · exact h

theorem map_id_on (f : Char → Char) : ∀ l : List Char, (∀ c ∈ l, f c = c) → l.map f = l := by
  intro l
  induction l with
  | nil => intro _; rfl
  | cons c rest ih =>
    intro h
    rw [List.map_cons, h c (List.mem_cons_self _ _), ih (fun x hx => h x (List.mem_cons_of_mem _ hx))]

theorem mem_trim {c : Char} {l : List Char} (h : c ∈ trim l) : c ∈ l :=
  mem_dropWhile _ (trimRight_subset _ h)

theorem trim_noTwo {l : List Char} (h : noTwoWs l = true) : noTwoWs (trim l) = true :=
  trimRight_noTwo _ (noTwoWs_dropWhile _ h)

theorem normalize_keep {c : Char} {l : List Char} (h : c ∈ normalize l) : keepChar c = true := by
  rcases mem_collapseAux false _ h with rfl | ⟨h2, _⟩
  · exact keepChar_space
  · exact (List.mem_filter.mp h2).2

theorem normalize_wsSpace {c : Char} {l : List Char} (h : c ∈ normalize l)
    (hw : isWs c = true) : c = ' ' := by
  rcases mem_collapseAux false _ h with rfl | ⟨_, h3⟩
  · rfl
  · rw [h3] at hw; cases hw

theorem normalize_noTwo (l : List Char) : noTwoWs (normalize l) = true :=
  (collapse_inv _).1 false

/-! ### Helper lemma for the narration pool -/

theorem getD_mod_mem (l : List String) (k : Nat) (h : l ≠ []) :
    l.getD (k % l.length) "" ∈ l := by
  have hlen : 0 < l.length := List.length_pos.mpr h
  have hk : k % l.length < l.length := Nat.mod_lt _ hlen
  rw [List.getD, List.get?_eq_get hk]
  exact List.get_mem _ _ _

/-! ### Claim theorems -/

/-- Claim C3, counterexample: `normalize` keeps hyphens (the stripped class is
`[^a-z0-9\s-]`), so `normalize("Cross-Roads!")` is `"cross-roads"`, which is
not `normalize("crossroads")`. -/
theorem c3_counterexample :
    normalize "Cross-Roads!".data ≠ normalize "crossroads".data ∧
    normalize "Cross-Roads!".data = "cross-roads".data := by decide

/-- Claim C3 (amended): `normalize` is case- and punctuation-insensitive
except that hyphens are preserved: `normalize("Cross-Roads!")` equals
`normalize("cross-roads")`. -/
theorem c3_amended :
    normalize "Cross-Roads!".data = normalize "cross-roads".data := by decide

/-- Claim C4, counterexample: `normalize` is not idempotent. Stripping runs
after trimming, so stripping a leading `"!"` in `"! a"` exposes a leading
space that survives collapsing: `normalize "! a" = " a"` but
`normalize " a" = "a"`. -/
theorem c4_counterexample :
    normalize (normalize "! a".data) ≠ normalize "! a".data ∧
    normalize "! a".data = " a".data ∧
    normalize (normalize "! a".data) = "a".data := by decide

/-- Claim C4 (amended): a second application of `normalize` only trims the
surrounding whitespace that stripping can expose:
`normalize (normalize x) = trim (normalize x)` for every string `x` (so
idempotence holds exactly when `normalize x` has no leading or trailing
space). -/
theorem c4_amended (l : List Char) :
    normalize (normalize l) = trim (normalize l) := by
  have hkeep : ∀ c ∈ trim (normalize l), keepChar c = true :=
    fun c hc => normalize_keep (mem_trim hc)
  have hmap : (trim (normalize l)).map jsToLower = trim (normalize l) :=
    map_id_on _ _ (fun c hc => jsToLower_noop (hkeep c hc))
  have hfil : (trim (normalize l)).filter keepChar = trim (normalize l) :=
    List.filter_eq_self.mpr hkeep
  have hcol : collapseAux false (trim (normalize l)) = trim (normalize l) :=
    collapse_noop _ (fun c hc hw => normalize_wsSpace (mem_trim hc) hw)
      (trim_noTwo (normalize_noTwo l))
  show collapseWs (((trim (normalize l)).map jsToLower).filter keepChar) = trim (normalize l)
  rw [hmap, hfil]
  exact hcol

/-- Claim C10: `normalize` is total on null, undefined and the empty string:
the `(s || "").toString()` coercion turns each into `""`, whose
normalization is `""`. -/
theorem c10_total :
    normalizeJS JSVal.jsNull = "" ∧ normalizeJS JSVal.jsUndefined = "" ∧
    normalizeJS (JSVal.jsStr "") = "" := by decide

/-- Claim C6, counterexample: an unrecognized non-empty location id does not
classify to `"unknown"`: `zoneGroup "mystery_zone"` falls through to
`"down"` although `"mystery_zone"` is not a defined zone. -/
theorem c6_counterexample :
    zoneGroup "mystery_zone" = "down" ∧ "mystery_zone" ∉ ZONES := by decide

/-- Claim C6 (amended): `zoneGroup` is total with no error conditions: every
defined location id classifies to a known group (`"up"`, `"down"` or
`"out"`); only a missing (falsy: null/undefined/empty) id classifies to
`"unknown"` — every non-empty id, unrecognized ones included, is assigned
to one of the known groups by the textual rules (an `up_`-prefixed or
stairs id to `"up"`, the two outdoor ids to `"out"`, anything else to
`"down"`), never to `"unknown"`. -/
theorem c6_amended (z : String) (hz : z ≠ "") :
    (ZONES.all fun w => zoneGroup w == "up" || zoneGroup w == "down" || zoneGroup w == "out") = true ∧
    zoneGroup "" = "unknown" ∧
    (zoneGroup z = "up" ∨ zoneGroup z = "out" ∨ zoneGroup z = "down") := by
  refine ⟨by decide, by decide, ?_⟩
  unfold zoneGroup
  rw [if_neg hz]
  split
  · exact Or.inl rfl
  · split
    · exact Or.inr (Or.inl rfl)
    · exact Or.inr (Or.inr rfl)

/-- Claim C6 (amended) witness at the unrecognized non-empty id of the
counterexample, which classifies to a known group, not `"unknown"`. -/
theorem c6_amended_witness :
    (ZONES.all fun w => zoneGroup w == "up" || zoneGroup w == "down" || zoneGroup w == "out") = true ∧
    zoneGroup "" = "unknown" ∧
    (zoneGroup "mystery_zone" = "up" ∨ zoneGroup "mystery_zone" = "out" ∨
      zoneGroup "mystery_zone" = "down") :=
  c6_amended "mystery_zone" (by decide)

/-- Claim C2, counterexample: for the non-special transition to step id 2
with direction up→up the directional candidate set is non-empty, yet the
selector can return a generic-pool line (random index 1), so the generic
pool is not replaced by the direction-specific candidates. -/
theorem c2_counterexample :
    directionalLines (zoneGroup "up_corridor") (zoneGroup "up_bedroom_current") ≠ [] ∧
    mapRevealLine 2 "up_corridor" "up_bedroom_current" 1 ∈ genericPool ∧
    mapRevealLine 2 "up_corridor" "up_bedroom_current" 1 ∉
      directionalLines (zoneGroup "up_corridor") (zoneGroup "up_bedroom_current") := by decide

/-- Claim C2 (amended): for every reveal transition whose step id is not a
special beat, the selected line comes from the direction-specific
candidates concatenated with the generic pool — directional candidates are
prepended to the pool, not a replacement for it. -/
theorem c2_amended (sid : Nat) (fz tz : String) (k : Nat)
    (h7 : sid ≠ 7) (h10 : sid ≠ 10) (h16 : sid ≠ 16) (h17 : sid ≠ 17) (h18 : sid ≠ 18) :
    mapRevealLine sid fz tz k ∈
      directionalLines (zoneGroup fz) (zoneGroup tz) ++ genericPool := by
  unfold mapRevealLine
  rw [if_neg h7, if_neg h10, if_neg h16, if_neg h17, if_neg h18]
  dsimp only
  have hpool : genericPool ≠ [] := by decide
  by_cases hd : directionalLines (zoneGroup fz) (zoneGroup tz) = []
  · rw [if_neg (by simp [hd]), hd, List.nil_append]
    exact getD_mod_mem _ _ hpool
  · rw [if_pos hd]
    apply getD_mod_mem
    simp [hpool]

/-- Claim C2 (amended) witness at the concrete transition of the
counterexample. -/
theorem c2_amended_witness :
    mapRevealLine 2 "up_corridor" "up_bedroom_current" 1 ∈
      directionalLines (zoneGroup "up_corridor") (zoneGroup "up_bedroom_current") ++ genericPool :=
  c2_amended 2 "up_corridor" "up_bedroom_current" 1
    (by decide) (by decide) (by decide) (by decide) (by decide)

/-- Claim C1, counterexample: on the transition from step 0 (location
`up_corridor`) to step 1 (location `up_bedroom_current`) the reveal's
visited list is `["up_corridor"]` only — the destination is not in the
visited list, it is carried separately as the payload's current zone. -/
theorem c1_counterexample :
    showMapVisited DEFAULT_STEPS 1 = ["up_corridor"] ∧
    showMapZone DEFAULT_STEPS 1 = some "up_bedroom_current" ∧
    "up_bedroom_current" ∉ showMapVisited DEFAULT_STEPS 1 := by decide

/-- Claim C1 (amended): for a non-terminal transition from step `i`
(location A) to step `i+1` (location B), the reveal payload's visited list
is derived from the pre-advance prefix, steps `0..i` only: it contains A
(the destination B appears in it only if an earlier step already used B's
location), and B is exposed separately as the payload's current zone. -/
theorem c1_amended (steps : List Step) (i : Nat) (h : i + 1 < steps.length)
    (hA : steps[i].zone ≠ "") :
    steps[i].zone ∈ showMapVisited steps (i + 1) ∧
    showMapZone steps (i + 1) = some steps[i + 1].zone ∧
    showMapVisited steps (i + 1) =
      ((steps.take (i + 1)).map Step.zone).filter (fun z => z != "") := by
  have hi : i < steps.length := by omega
  have hmin : min (i + 1) steps.length = i + 1 := Nat.min_eq_left (by omega)
  refine ⟨?_, ?_, ?_⟩
  · unfold showMapVisited
    rw [hmin]
    apply List.mem_filter.mpr
    constructor
    · apply List.mem_map_of_mem
      rw [List.take_succ]
      apply List.mem_append.mpr
      right
      simp [List.getElem?_eq_getElem hi]
    · simpa using hA
  · unfold showMapZone
    have hmin2 : min (i + 1) (steps.length - 1) = i + 1 := by omega
    rw [hmin2, List.get?_eq_get h]
    rfl
  · unfold showMapVisited
    rw [hmin]

/-- Claim C1 (amended) witness at the step 0 → step 1 transition of the
default hunt. -/
theorem c1_amended_witness :
    DEFAULT_STEPS[0].zone ∈ showMapVisited DEFAULT_STEPS 1 ∧
    showMapZone DEFAULT_STEPS 1 = some DEFAULT_STEPS[1].zone ∧
    showMapVisited DEFAULT_STEPS 1 =
      ((DEFAULT_STEPS.take 1).map Step.zone).filter (fun z => z != "") :=
  c1_amended DEFAULT_STEPS 0 (by decide) (by decide)

/-- Claim C9: any persisted step index, in range or not, resolves to the
step at index `min(stepIndex, stepCount-1)` of a non-empty hunt: the
clamped index is valid and the lookup yields a step, never an error. -/
theorem c9_clamped (steps : List Step) (stepIndex : Nat) (h : steps ≠ []) :
    (currentStepAt steps stepIndex).isSome = true ∧
    min stepIndex (steps.length - 1) < steps.length := by
  have hlen : 0 < steps.length := List.length_pos.mpr h
  have hlt : min stepIndex (steps.length - 1) < steps.length := by omega
  refine ⟨?_, hlt⟩
  unfold currentStepAt
  rw [List.get?_eq_get hlt]
  rfl

/-- Claim C9 witness: stale persisted `stepIndex = 999` against the 18-step
default hunt still resolves. -/
theorem c9_clamped_witness :
    (currentStepAt DEFAULT_STEPS 999).isSome = true ∧
    min 999 (DEFAULT_STEPS.length - 1) < DEFAULT_STEPS.length :=
  c9_clamped DEFAULT_STEPS 999 (by decide)

/-- Claim C7: at the terminal step the submit handler performs no
validation and changes nothing — the state (step index included) is
returned untouched, no shake cue and no advance timer is produced, and the
only effect is the whisper narration request. -/
theorem c7_terminal (steps : List Step) (s : HuntState)
    (h : s.stepIndex = steps.length - 1) :
    onSubmit steps s = (s, [Effect.whisperRequest]) := by
  unfold onSubmit
  rw [if_pos (by omega)]

/-- Claim C7 witness at the terminal step (index 17) of the default hunt
with a non-empty arbitrary input. -/
theorem c7_terminal_witness :
    onSubmit DEFAULT_STEPS terminalState = (terminalState, [Effect.whisperRequest]) :=
  c7_terminal DEFAULT_STEPS terminalState (by decide)

/-- Claim C8: a confirmed Reset sets the step index to 0 and leaves the
narration-unlocked flag untouched, and Jump(k) clamps any integer k to
`[0, stepCount-1]`, also leaving the flag untouched. -/
theorem c8_reset_jump (steps : List Step) (s : HuntState) (k : Int) :
    (reset true s).stepIndex = 0 ∧
    (reset true s).unlockedAudio = s.unlockedAudio ∧
    ((jumpTo steps k s).stepIndex : Int) = max 0 (min k ((steps.length : Int) - 1)) ∧
    (jumpTo steps k s).unlockedAudio = s.unlockedAudio := by
  refine ⟨rfl, rfl, ?_, rfl⟩
  show ((max 0 (min k ((steps.length : Int) - 1))).toNat : Int) = _
  exact Int.toNat_of_nonneg (le_max_left 0 _)

/-- Claim C5: the code does not discard the pending step-advance timer on
Reset. Submitting the correct answer at step 0 schedules an advance to
index 1; a Reset performed while the reveal is open sets the index to 0 but
leaves the timer pending, and when the stale timer fires it mutates the
index back to 1 — contradicting the claimed "discards pending timers". -/
theorem c5_stale_timer_fires :
    (reset true (onSubmit DEFAULT_STEPS submitReadyState).1).stepIndex = 0 ∧
    (reset true (onSubmit DEFAULT_STEPS submitReadyState).1).pendingAdvance = [1] ∧
    (fireAdvance 1 (reset true (onSubmit DEFAULT_STEPS submitReadyState).1)).stepIndex = 1 := by
  decide

end Santismo
